import Mathlib

/-!
Verification of the deterministic adverse-reaction table extractor of
`scripts/extract.py` (function `parse_adverse_reactions_table`).

The function receives an HTML string, parses it with BeautifulSoup
(`html.parser`), takes the first `<table>` element, determines a header row
(first `<tr>` of a `<thead>` when one exists, otherwise the first `<tr>` of
the `<tbody>`), and builds one Python dict per body row whose `<td>` count
equals the header count, normalizing each cell text with two anchored
regexes (`^<?(\d+(?:\.\d+)?)\s*%$` and `^<?(\d+(?:\.\d+)?)$`).

Embedding choices, each justified by the source:
* The HTML-parsing library is modelled at the DOM level: the input to
  `extract` is the first `<table>` element (or `none` when the document has
  no table), given as its optional `<thead>` row list and optional `<tbody>`
  row list, each row being a list of cells tagged `th`/`td` with their text
  content.  `html.parser` inserts no implicit `tbody`, so tables without a
  `<tbody>` element genuinely reach the code.  A found bs4 `Tag` is always
  truthy, so `if not table` / `if table.thead` test presence (`None`-ness).
* Python `float` of a matched decimal literal is modelled exactly as a
  rational; every concrete value in the claims is exactly representable in
  binary floating point, and IEEE rounding is monotone, so the order and
  equality facts proved here hold of the floats as well.
* Python str.strip / `\s` are modelled on the six ASCII whitespace
  characters; the inputs at issue are ASCII.
* Exceptions are modelled with `Except`: `ValueError` ("No <table> found")
  as `noTable`, the `AttributeError` from dereferencing a missing
  `tbody`/`tr` as `attrError`.
-/

namespace AE

/-- Python ASCII whitespace, the characters `\s` matches in ASCII text. -/
def pyIsSpace (c : Char) : Bool :=
  c = ' ' || c = '\t' || c = '\n' || c = '\x0b' || c = '\x0c' || c = '\r'

/-- Python `str.strip()` on a character list: drop whitespace at both ends. -/
def pyStrip (cs : List Char) : List Char :=
  ((cs.dropWhile pyIsSpace).reverse.dropWhile pyIsSpace).reverse

/-- Python `str.strip()` on a string; also what `get_text(strip=True)`
performs on a cell containing a single text node. -/
def pyStripStr (s : String) : String :=
  String.mk (pyStrip s.data)

/-- A cell value of the produced row dicts: the source stores either the
`float` of a matched numeric literal or the stripped text itself. -/
inductive Cell where
  | Number (v : ℚ)
  | Text (s : String)
deriving DecidableEq, Repr

/-- Longest digit prefix of a character list, with the remainder: the
greedy `\d+` / `\d*` step of the regexes. -/
def splitDigits : List Char → List Char × List Char
  | [] => ([], [])
  | c :: cs =>
    if c.isDigit then
      let p := splitDigits cs
      (c :: p.1, p.2)
    else ([], c :: cs)

/-- Numeric value of a digit string, as Python `int` of it. -/
def digitsToNat (cs : List Char) : Nat :=
  cs.foldl (fun a c => 10 * a + (c.toNat - '0'.toNat)) 0

/-- Exact value of the decimal literal `intPart.fracPart` (the fraction
`intPart.fracPart = intPart + fracPart / 10 ^ |fracPart|`), the value Python
`float` rounds to nearest. -/
def decimalValue (intPart fracPart : List Char) : ℚ :=
  mkRat (digitsToNat intPart * 10 ^ fracPart.length + digitsToNat fracPart)
    (10 ^ fracPart.length)

/-- Greedy match of `\d+(?:\.\d+)?` at the front of the input, returning the
literal's value and the unconsumed remainder.  Greedy maximal munch is
equivalent to the regex here: giving back digits always leaves a digit in
front, which neither `\s*%$` nor `$` can accept. -/
def matchNum (cs : List Char) : Option (ℚ × List Char) :=
  let p := splitDigits cs
  if p.1 = [] then none
  else
    match p.2 with
    | '.' :: r2 =>
      let q := splitDigits r2
      if q.1 = [] then some (decimalValue p.1 [], p.2)
      else some (decimalValue p.1 q.1, q.2)
    | r => some (decimalValue p.1 [], r)

/-- The optional leading less-than marker `<?`.  When the first character is
`<` only the consuming alternative can continue (a digit must follow), so
the optional marker is deterministic. -/
def dropLt : List Char → List Char
  | '<' :: cs => cs
  | cs => cs

/-- Whole-string match of `^<?(\d+(?:\.\d+)?)\s*%$`, returning the float of
the captured group.  The input is already stripped, hence has no trailing
newline and `$` is end-of-string. -/
def matchPct (cs : List Char) : Option ℚ :=
  match matchNum (dropLt cs) with
  | some (v, r) => if r.dropWhile pyIsSpace = ['%'] then some v else none
  | none => none

/-- Whole-string match of `^<?(\d+(?:\.\d+)?)$`, returning the float of the
captured group. -/
def matchBare (cs : List Char) : Option ℚ :=
  match matchNum (dropLt cs) with
  | some (v, r) => if r = [] then some v else none
  | none => none

/-- Per-cell normalization of the source: strip the text (the
`get_text(strip=True)` call), try the percentage regex, then the bare-number
regex, and otherwise keep the stripped text. -/
def normalize (s : String) : Cell :=
  let t := pyStrip s.data
  match matchPct t with
  | some v => Cell.Number v
  | none =>
    match matchBare t with
    | some v => Cell.Number v
    | none => Cell.Text (String.mk t)

/-- The tag of a table cell element. -/
inductive CellTag where
  | th
  | td
deriving DecidableEq, Repr

/-- A table cell: its tag and the text content of the element. -/
structure HCell where
  tag : CellTag
  text : String
deriving DecidableEq, Repr

/-- The first `<table>` element, as the extractor reads it: the rows of its
`<thead>` when that element exists, and the rows of its `<tbody>` when that
element exists (`html.parser` creates no implicit `tbody`). -/
structure HTable where
  thead : Option (List (List HCell))
  tbody : Option (List (List HCell))
deriving DecidableEq, Repr

/-- The dict returned by `parse_adverse_reactions_table`: the `columns` list
and the per-row dicts, each dict modelled as its insertion-ordered
key/value pairs. -/
structure PTable where
  columns : List String
  data : List (List (String × Cell))
deriving DecidableEq, Repr

/-- The two exceptions the function can raise. -/
inductive ExtractError where
  | noTable
  | attrError
deriving DecidableEq, Repr

/-- Texts of a header row: `find_all(['th','td'])` takes every cell of the
row in order, and `get_text(strip=True)` strips each text. -/
def headerTexts (row : List HCell) : List String :=
  row.map (fun c => pyStripStr c.text)

/-- The `<td>` cells of a row, in order: `tr.find_all('td')`. -/
def tdCells (row : List HCell) : List HCell :=
  row.filter (fun c => c.tag = CellTag.td)

/-- Python dict assignment `d[k] = v`: an existing key keeps its position
and gets the new value, a new key is appended. -/
def dictInsert (d : List (String × Cell)) (k : String) (v : Cell) :
    List (String × Cell) :=
  if k ∈ d.map Prod.fst then d.map (fun p => if p.1 = k then (k, v) else p)
  else d ++ [(k, v)]

/-- Build one row dict: `zip(headers, cells)` then `row_dict[header] =`
normalized cell text. -/
def buildRow (headers : List String) (cells : List HCell) :
    List (String × Cell) :=
  (headers.zip cells).foldl (fun d p => dictInsert d p.1 (normalize p.2.text)) []

/-- The body loop: for each row, keep it only when its `<td>` count equals
the header count, and then append its dict. -/
def processRows (headers : List String) : List (List HCell) → List (List (String × Cell))
  | [] => []
  | r :: rs =>
    let cells := tdCells r
    if cells.length = headers.length then
      buildRow headers cells :: processRows headers rs
    else processRows headers rs

/-- First `<tr>` of the `<thead>`, when a `<thead>` with a row exists: the
condition `table.thead and table.thead.find('tr')`. -/
def theadFirstRow (t : HTable) : Option (List HCell) :=
  match t.thead with
  | some (r :: _) => some r
  | _ => none

/-- Whether the header row is taken from the `<thead>`. -/
def theadHasRow (t : HTable) : Bool :=
  (theadFirstRow t).isSome

/-- The extractor on the first `<table>` of the document (`none` when the
document has none).  When the header row comes from the `<thead>`, the
identity test `tr is header_row` never fires and every `<tbody>` row is
iterated; otherwise the header row is the first `<tbody>` row and exactly
that row is skipped.  A missing `<tbody>` (or a `<tbody>` without a row
when the header must come from it) raises `AttributeError`. -/
def extract (d : Option HTable) : Except ExtractError PTable :=
  match d with
  | none => Except.error ExtractError.noTable
  | some t =>
    match theadFirstRow t, t.tbody with
    | _, none => Except.error ExtractError.attrError
    | some hr, some body =>
      Except.ok ⟨headerTexts hr, processRows (headerTexts hr) body⟩
    | none, some [] => Except.error ExtractError.attrError
    | none, some (hr :: rest) =>
      Except.ok ⟨headerTexts hr, processRows (headerTexts hr) rest⟩

instance {ε α : Type _} [DecidableEq ε] [DecidableEq α] : DecidableEq (Except ε α) :=
  fun a b =>
    match a, b with
    | .error e, .error f =>
      if h : e = f then .isTrue (congrArg Except.error h)
      else .isFalse (fun hh => h (Except.error.inj hh))
    | .ok x, .ok y =>
      if h : x = y then .isTrue (congrArg Except.ok h)
      else .isFalse (fun hh => h (Except.ok.inj hh))
    | .error _, .ok _ => .isFalse Except.noConfusion
    | .ok _, .error _ => .isFalse Except.noConfusion

/-- The first table of the end-to-end scenario HTML
`<table><tbody><tr><th>Reaction</th><th>Drug (%)</th><th>Placebo (%)</th></tr>
<tr><td>Nausea</td><td>29 %</td><td>10 %</td></tr>
<tr><td>Headache</td><td>&lt;1 %</td><td>0%</td></tr></tbody></table>`:
no `<thead>`, a `<tbody>` of three rows, and the entity `&lt;` decoded by the
HTML parser to the character `<`. -/
def demoTable : HTable :=
  { thead := none
    tbody := some
      [ [⟨CellTag.th, "Reaction"⟩, ⟨CellTag.th, "Drug (%)"⟩, ⟨CellTag.th, "Placebo (%)"⟩],
        [⟨CellTag.td, "Nausea"⟩, ⟨CellTag.td, "29 %"⟩, ⟨CellTag.td, "10 %"⟩],
        [⟨CellTag.td, "Headache"⟩, ⟨CellTag.td, "<1 %"⟩, ⟨CellTag.td, "0%"⟩] ] }

/-- The three-row body of the C10 scenario: a header line, a repeated
header-like row made of `<th>` cells, and a `<td>` data row. -/
def mixedRows : List (List HCell) :=
  [ [⟨CellTag.th, "H1"⟩, ⟨CellTag.th, "H2"⟩],
    [⟨CellTag.th, "X"⟩, ⟨CellTag.th, "Y"⟩],
    [⟨CellTag.td, "1"⟩, ⟨CellTag.td, "2"⟩] ]

/-- A table with no header section whose body holds `mixedRows`. -/
def mixedTable : HTable := ⟨none, some mixedRows⟩

/-- A table with a header-section row `A B` and one body data row. -/
def headedTable : HTable :=
  ⟨some [[⟨CellTag.th, "A"⟩, ⟨CellTag.th, "B"⟩]],
    some [[⟨CellTag.td, "1"⟩, ⟨CellTag.td, "2"⟩]]⟩

/-- A table whose header row repeats the header string `A`. -/
def dupTable : HTable :=
  ⟨some [[⟨CellTag.th, "A"⟩, ⟨CellTag.th, "A"⟩]],
    some [[⟨CellTag.td, "1"⟩, ⟨CellTag.td, "2"⟩]]⟩

/-- The keys of a row dict, in insertion order. -/
def keysOf (d : List (String × Cell)) : List String :=
  d.map Prod.fst

/-- One step of insertion-ordered key accumulation. -/
def insStep (ks : List String) (k : String) : List String :=
  if k ∈ ks then ks else ks ++ [k]

/-- Insertion-ordered key accumulation over a key list. -/
def insFold (ks : List String) (l : List String) : List String :=
  l.foldl insStep ks

lemma decimalValue_nonneg (a b : List Char) : 0 ≤ decimalValue a b := by
  rw [decimalValue, Rat.mkRat_eq_divInt, Rat.divInt_eq_div]
  positivity

lemma matchNum_nonneg {cs : List Char} {v : ℚ} {r : List Char}
    (h : matchNum cs = some (v, r)) : 0 ≤ v := by
  unfold matchNum at h
  dsimp only at h
  split at h
  · exact absurd h (by simp)
  · split at h
    · split at h <;>
        · obtain ⟨h1, -⟩ := Prod.mk.injEq _ _ _ _ ▸ Option.some.inj h
          exact h1 ▸ decimalValue_nonneg _ _
    · obtain ⟨h1, -⟩ := Prod.mk.injEq _ _ _ _ ▸ Option.some.inj h
      exact h1 ▸ decimalValue_nonneg _ _

lemma matchPct_nonneg {cs : List Char} {v : ℚ} (h : matchPct cs = some v) : 0 ≤ v := by
  unfold matchPct at h
  split at h
  · rename_i w r hm
    split at h
    · exact Option.some.inj h ▸ matchNum_nonneg hm
    · exact absurd h (by simp)
  · exact absurd h (by simp)

lemma matchBare_nonneg {cs : List Char} {v : ℚ} (h : matchBare cs = some v) : 0 ≤ v := by
  unfold matchBare at h
  split at h
  · rename_i w r hm
    split at h
    · exact Option.some.inj h ▸ matchNum_nonneg hm
    · exact absurd h (by simp)
  · exact absurd h (by simp)

lemma theadFirstRow_of_thead {t : HTable} {hr : List HCell} {l : List (List HCell)}
    (h : t.thead = some (hr :: l)) : theadFirstRow t = some hr := by
  simp [theadFirstRow, h]

lemma extract_of_thead {t : HTable} {hr : List HCell} {l body : List (List HCell)}
    (h1 : t.thead = some (hr :: l)) (h2 : t.tbody = some body) :
    extract (some t) = Except.ok ⟨headerTexts hr, processRows (headerTexts hr) body⟩ := by
  simp [extract, theadFirstRow_of_thead h1, h2]

lemma extract_of_noThead {t : HTable} {hr : List HCell} {rest : List (List HCell)}
    (h1 : theadHasRow t = false) (h2 : t.tbody = some (hr :: rest)) :
    extract (some t) = Except.ok ⟨headerTexts hr, processRows (headerTexts hr) rest⟩ := by
  have hf : theadFirstRow t = none := by
    simpa [theadHasRow, Option.isSome_iff_exists] using h1
  simp [extract, hf, h2]

lemma extract_of_noTbody {t : HTable} (h : t.tbody = none) :
    extract (some t) = Except.error ExtractError.attrError := by
  cases hf : theadFirstRow t <;> simp [extract, hf, h]

lemma extract_of_emptyTbody {t : HTable} (h1 : theadHasRow t = false)
    (h2 : t.tbody = some []) :
    extract (some t) = Except.error ExtractError.attrError := by
  have hf : theadFirstRow t = none := by
    simpa [theadHasRow, Option.isSome_iff_exists] using h1
  simp [extract, hf, h2]

/-- Inversion: everything a successful extraction tells about the table. -/
lemma extract_ok_inv {t : HTable} {pt : PTable}
    (h : extract (some t) = Except.ok pt) :
    ∃ body, t.tbody = some body ∧
      ((∃ hr l, t.thead = some (hr :: l) ∧
          pt = ⟨headerTexts hr, processRows (headerTexts hr) body⟩) ∨
        (theadHasRow t = false ∧ ∃ hr rest, body = hr :: rest ∧
          pt = ⟨headerTexts hr, processRows (headerTexts hr) rest⟩)) := by
  cases hb : t.tbody with
  | none => rw [extract_of_noTbody hb] at h; exact absurd h (by simp)
  | some body =>
    refine ⟨body, rfl, ?_⟩
    cases ht : t.thead with
    | some rows =>
      cases rows with
      | nil =>
        have hf : theadHasRow t = false := by simp [theadHasRow, theadFirstRow, ht]
        cases body with
        | nil => rw [extract_of_emptyTbody hf hb] at h; exact absurd h (by simp)
        | cons hr rest =>
          rw [extract_of_noThead hf hb] at h
          exact Or.inr ⟨hf, hr, rest, rfl, (Except.ok.inj h).symm⟩
      | cons hr l =>
        rw [extract_of_thead ht hb] at h
        exact Or.inl ⟨hr, l, rfl, (Except.ok.inj h).symm⟩
    | none =>
      have hf : theadHasRow t = false := by simp [theadHasRow, theadFirstRow, ht]
      cases body with
      | nil => rw [extract_of_emptyTbody hf hb] at h; exact absurd h (by simp)
      | cons hr rest =>
        rw [extract_of_noThead hf hb] at h
        exact Or.inr ⟨hf, hr, rest, rfl, (Except.ok.inj h).symm⟩

lemma theadHasRow_true_iff {t : HTable} :
    theadHasRow t = true ↔ ∃ hr l, t.thead = some (hr :: l) := by
  unfold theadHasRow theadFirstRow
  cases ht : t.thead with
  | none => simp
  | some rows => cases rows <;> simp

/-- The loop is the filter of the arity test followed by the record map. -/
lemma processRows_eq (hs : List String) (rows : List (List HCell)) :
    processRows hs rows =
      (rows.filter (fun r => (tdCells r).length == hs.length)).map
        (fun r => buildRow hs (tdCells r)) := by
  induction rows with
  | nil => rfl
  | cons r rs ih =>
    by_cases h : (tdCells r).length = hs.length <;>
      simp [processRows, List.filter_cons, h, ih]

lemma processRows_length_le (hs : List String) (rows : List (List HCell)) :
    (processRows hs rows).length ≤ rows.length := by
  rw [processRows_eq, List.length_map]
  exact List.length_filter_le _ _

lemma mem_processRows {hs : List String} {rows : List (List HCell)}
    {row : List (String × Cell)} (h : row ∈ processRows hs rows) :
    ∃ r ∈ rows, (tdCells r).length = hs.length ∧ row = buildRow hs (tdCells r) := by
  rw [processRows_eq] at h
  simp only [List.mem_map, List.mem_filter] at h
  obtain ⟨r, ⟨hr, hlen⟩, rfl⟩ := h
  exact ⟨r, hr, by simpa using hlen, rfl⟩

lemma tdCells_eq_nil {r : List HCell} (h : ∀ c ∈ r, c.tag = CellTag.th) :
    tdCells r = [] := by
  rw [tdCells, List.filter_eq_nil_iff]
  intro c hc
  simp [h c hc]

lemma keysOf_update (d : List (String × Cell)) (k : String) (v : Cell) :
    keysOf (d.map (fun p => if p.1 = k then (k, v) else p)) = keysOf d := by
  induction d with
  | nil => rfl
  | cons p ps ih =>
    unfold keysOf at ih ⊢
    simp only [List.map_cons]
    rw [ih]
    by_cases hp : p.1 = k <;> simp [hp]

lemma keysOf_dictInsert (d : List (String × Cell)) (k : String) (v : Cell) :
    keysOf (dictInsert d k v) = insStep (keysOf d) k := by
  unfold dictInsert insStep
  by_cases h : k ∈ keysOf d
  · rw [if_pos (by simpa [keysOf] using h), if_pos h, keysOf_update]
  · rw [if_neg (by simpa [keysOf] using h), if_neg h]
    simp [keysOf]

lemma keysOf_buildRow_foldl (pairs : List (String × HCell)) (d : List (String × Cell)) :
    keysOf (pairs.foldl (fun d p => dictInsert d p.1 (normalize p.2.text)) d) =
      insFold (keysOf d) (pairs.map Prod.fst) := by
  induction pairs generalizing d with
  | nil => rfl
  | cons p ps ih =>
    rw [List.foldl_cons, ih, keysOf_dictInsert, List.map_cons]
    rfl

lemma insFold_nodup (l : List String) :
    ∀ ks : List String, ks.Nodup → (insFold ks l).Nodup := by
  induction l with
  | nil => exact fun ks h => h
  | cons a l ih =>
    intro ks h
    rw [insFold, List.foldl_cons]
    refine ih (insStep ks a) ?_
    unfold insStep
    by_cases ha : a ∈ ks
    · simpa [ha] using h
    · simp [ha, List.nodup_append, h]

lemma insFold_toFinset (l : List String) :
    ∀ ks : List String, (insFold ks l).toFinset = ks.toFinset ∪ l.toFinset := by
  induction l with
  | nil => intro ks; simp [insFold]
  | cons a l ih =>
    intro ks
    rw [insFold, List.foldl_cons,
      show List.foldl insStep (insStep ks a) l = insFold (insStep ks a) l from rfl,
      ih]
    ext x
    by_cases ha : a ∈ ks
    · simp [insStep, ha]
    · simp [insStep, ha]
      tauto

lemma insFold_length (l : List String) :
    (insFold [] l).length = l.dedup.length := by
  have h1 : (insFold [] l).Nodup := insFold_nodup l [] (by simp)
  have h2 : (insFold [] l).toFinset = l.toFinset := by
    rw [insFold_toFinset]
    simp
  calc (insFold [] l).length
      = (insFold [] l).toFinset.card := (List.toFinset_card_of_nodup h1).symm
    _ = l.toFinset.card := by rw [h2]
    _ = l.dedup.length := List.card_toFinset l

/-- Number of keys of a row dict built from one header per cell: the number
of distinct headers (duplicate headers overwrite instead of adding keys). -/
lemma buildRow_length (hs : List String) (cells : List HCell)
    (h : cells.length = hs.length) :
    (buildRow hs cells).length = hs.dedup.length := by
  have hk : (buildRow hs cells).length = (keysOf (buildRow hs cells)).length := by
    simp [keysOf]
  rw [hk, buildRow, keysOf_buildRow_foldl,
    show keysOf [] = [] from rfl,
    List.map_fst_zip hs cells (le_of_eq h.symm), insFold_length]

/-- C1 (amended): a `Number` produced by `normalize` is always nonnegative;
the regexes put no upper bound on the matched value, so 100 can be
exceeded. -/
theorem normalize_number_nonneg :
    ∀ (s : String) (v : ℚ), normalize s = Cell.Number v → 0 ≤ v := by
  intro s v h
  unfold normalize at h
  dsimp only at h
  split at h
  · rename_i w hp
    exact Cell.Number.inj h ▸ matchPct_nonneg hp
  · split at h
    · rename_i w hb
      exact Cell.Number.inj h ▸ matchBare_nonneg hb
    · exact absurd h (by simp)

/-- Witness for C1: the bound of `normalize_number_nonneg` at the input
`"29"`. -/
theorem normalize_number_nonneg_witness :
    normalize "29" = Cell.Number 29 ∧ (0 : ℚ) ≤ 29 :=
  ⟨by decide, normalize_number_nonneg "29" 29 (by decide)⟩

/-- Counterexample to C1 as stated: the recognized percentage pattern also
matches `250 %`, whose `Number` value 250 is outside [0, 100]. -/
theorem normalize_number_above_100 :
    normalize "250 %" = Cell.Number 250 ∧ ¬((250 : ℚ) ≤ 100) :=
  ⟨by decide, by norm_num⟩

/-- C2: on the end-to-end scenario table, `extract` returns the three
headers and exactly the two records of the claim, in order (`29 %`, `10 %`,
`&lt;1 %` and `0%` normalize to the numbers 29, 10, 1, 0; `Nausea` and
`Headache` stay text; the header row, although it sits in the body section,
is skipped). -/
theorem extract_end_to_end :
    extract (some demoTable) = Except.ok
      ⟨["Reaction", "Drug (%)", "Placebo (%)"],
        [[("Reaction", Cell.Text "Nausea"), ("Drug (%)", Cell.Number 29),
          ("Placebo (%)", Cell.Number 10)],
         [("Reaction", Cell.Text "Headache"), ("Drug (%)", Cell.Number 1),
          ("Placebo (%)", Cell.Number 0)]]⟩ := by
  decide

/-- C3: whenever extraction succeeds structurally (a header row exists),
the output records are exactly the iterated body rows — all body-section
rows, except the first one when the header row sits in the body — whose
`<td>` count equals the header count, in document order, each mapped to its
record; rows of any other arity are absent and cause no error. -/
theorem rows_arity_characterization :
    ∀ (t : HTable) (body : List (List HCell)),
      t.tbody = some body → (theadHasRow t = true ∨ body ≠ []) →
      ∃ pt, extract (some t) = Except.ok pt ∧
        pt.data =
          ((if theadHasRow t then body else body.tail).filter
              (fun r => (tdCells r).length == pt.columns.length)).map
            (fun r => buildRow pt.columns (tdCells r)) := by
  intro t body hb hok
  cases hh : theadHasRow t with
  | true =>
    obtain ⟨hr, l, ht⟩ := theadHasRow_true_iff.mp hh
    refine ⟨_, extract_of_thead ht hb, ?_⟩
    simp [hh, processRows_eq, headerTexts]
  | false =>
    cases body with
    | nil => simp [hh] at hok
    | cons hr rest =>
      refine ⟨_, extract_of_noThead hh hb, ?_⟩
      simp [hh, processRows_eq, headerTexts]

/-- Witness for C3 at `mixedTable`: the `<th>`-only row is dropped, the
`<td>` row is kept. -/
theorem rows_arity_characterization_witness :
    (mixedTable.tbody = some mixedRows ∧
        (theadHasRow mixedTable = true ∨ mixedRows ≠ [])) ∧
      ∃ pt, extract (some mixedTable) = Except.ok pt ∧
        pt.data =
          ((if theadHasRow mixedTable then mixedRows else mixedRows.tail).filter
              (fun r => (tdCells r).length == pt.columns.length)).map
            (fun r => buildRow pt.columns (tdCells r)) :=
  ⟨⟨rfl, Or.inr (by decide)⟩,
    rows_arity_characterization mixedTable mixedRows rfl (Or.inr (by decide))⟩

/-- C4: a document with no table fails with the no-table error (and, the
result being an error, no partial table is returned), and a document with a
table never produces the no-table error. -/
theorem noTable_error_iff :
    extract none = Except.error ExtractError.noTable ∧
      ∀ t : HTable, extract (some t) ≠ Except.error ExtractError.noTable := by
  refine ⟨rfl, fun t => ?_⟩
  cases hf : theadFirstRow t <;> cases hb : t.tbody <;>
    first
    | (simp [extract, hf, hb]; done)
    | (rename_i body; cases body <;> simp [extract, hf, hb])

/-- C5: the six boundary cases of `normalize`.  The rational `mkRat 1 2` is
the value 0.5; the less-than marker of `<1 %` is accepted but the returned
value is the literal 1. -/
theorem normalize_boundary_cases :
    normalize "29 %" = Cell.Number 29 ∧
    normalize "<1 %" = Cell.Number 1 ∧
    normalize "0.5%" = Cell.Number (mkRat 1 2) ∧
    normalize "15" = Cell.Number 15 ∧
    normalize "N/A" = Cell.Text "N/A" ∧
    normalize "29% of patients" = Cell.Text "29% of patients" := by
  refine ⟨by decide, by decide, by decide, by decide, by decide, by decide⟩

/-- C6: the header-section row always wins — a table with a header-section
row never takes its headers from the body, and only a table without a
header-section row takes them from the first body row. -/
theorem header_precedence :
    ∀ (t : HTable) (pt : PTable), extract (some t) = Except.ok pt →
      (∀ hr l, t.thead = some (hr :: l) → pt.columns = headerTexts hr) ∧
      (theadHasRow t = false →
        ∀ hr rest, t.tbody = some (hr :: rest) → pt.columns = headerTexts hr) := by
  intro t pt h
  obtain ⟨body, hb, hcase⟩ := extract_ok_inv h
  rcases hcase with ⟨hr, l, ht, rfl⟩ | ⟨hf, hr, rest, rfl, rfl⟩
  · constructor
    · intro hr' l' ht'
      rw [ht] at ht'
      obtain ⟨h1, -⟩ := List.cons.injEq _ _ _ _ ▸ Option.some.inj ht'
      rw [h1]
    · intro hf
      have : theadHasRow t = true := theadHasRow_true_iff.mpr ⟨hr, l, ht⟩
      rw [this] at hf
      exact absurd hf (by simp)
  · constructor
    · intro hr' l' ht'
      have : theadHasRow t = true := theadHasRow_true_iff.mpr ⟨hr', l', ht'⟩
      rw [this] at hf
      exact absurd hf (by simp)
    · intro _ hr' rest' hb'
      rw [hb] at hb'
      obtain ⟨h1, -⟩ := List.cons.injEq _ _ _ _ ▸ Option.some.inj hb'
      rw [h1]

/-- Witness for C6 at `headedTable`: the header-section row `A B` wins over
the body row `1 2`. -/
theorem header_precedence_witness :
    (PTable.mk ["A", "B"] [[("A", Cell.Number 1), ("B", Cell.Number 2)]]).columns =
      headerTexts [⟨CellTag.th, "A"⟩, ⟨CellTag.th, "B"⟩] :=
  (header_precedence headedTable
      (PTable.mk ["A", "B"] [[("A", Cell.Number 1), ("B", Cell.Number 2)]])
      (by decide)).1
    [⟨CellTag.th, "A"⟩, ⟨CellTag.th, "B"⟩] [] rfl

/-- C7 (amended): a successful extraction returns at most as many records
as there are physical body rows — at most one fewer when the header row
sits in the body — and every record's key count equals the number of
distinct header strings (so equals the header count exactly when the
headers are duplicate-free; duplicate headers collapse into one dict key). -/
theorem output_size_bounds :
    ∀ (t : HTable) (pt : PTable) (body : List (List HCell)),
      extract (some t) = Except.ok pt → t.tbody = some body →
      pt.data.length ≤ body.length - (if theadHasRow t then 0 else 1) ∧
        ∀ row ∈ pt.data, row.length = pt.columns.dedup.length := by
  intro t pt body h hb
  obtain ⟨body', hb', hcase⟩ := extract_ok_inv h
  rw [hb] at hb'
  obtain rfl : body = body' := Option.some.inj hb'
  rcases hcase with ⟨hr, l, ht, rfl⟩ | ⟨hf, hr, rest, rfl, rfl⟩
  · have hh : theadHasRow t = true := theadHasRow_true_iff.mpr ⟨hr, l, ht⟩
    refine ⟨by simpa [hh] using processRows_length_le (headerTexts hr) body, ?_⟩
    intro row hrow
    obtain ⟨r, -, hlen, rfl⟩ := mem_processRows hrow
    exact buildRow_length _ _ hlen
  · refine ⟨?_, ?_⟩
    · have := processRows_length_le (headerTexts hr) rest
      simpa [hf] using this
    · intro row hrow
      obtain ⟨r, -, hlen, rfl⟩ := mem_processRows hrow
      exact buildRow_length _ _ hlen

/-- Witness for C7 at `headedTable`: one record out of one body row, with
both keys present since the headers `A`, `B` are distinct. -/
theorem output_size_bounds_witness :
    (PTable.mk ["A", "B"] [[("A", Cell.Number 1), ("B", Cell.Number 2)]]).data.length ≤
        ([[⟨CellTag.td, "1"⟩, ⟨CellTag.td, "2"⟩]] : List (List HCell)).length -
          (if theadHasRow headedTable then 0 else 1) ∧
      ∀ row ∈ (PTable.mk ["A", "B"]
          [[("A", Cell.Number 1), ("B", Cell.Number 2)]]).data,
        row.length =
          (PTable.mk ["A", "B"]
            [[("A", Cell.Number 1), ("B", Cell.Number 2)]]).columns.dedup.length :=
  output_size_bounds headedTable
    (PTable.mk ["A", "B"] [[("A", Cell.Number 1), ("B", Cell.Number 2)]])
    [[⟨CellTag.td, "1"⟩, ⟨CellTag.td, "2"⟩]] (by decide) rfl

/-- Counterexample to C7 as stated: with the duplicate headers `A`, `A`,
the single matching body row produces a record with one key (the second
assignment overwrites the first), not a key count equal to the header
count 2. -/
theorem duplicate_headers_keycount :
    extract (some dupTable) =
        Except.ok ⟨["A", "A"], [[("A", Cell.Number 2)]]⟩ ∧
      ([("A", Cell.Number 2)] : List (String × Cell)).length ≠
        (["A", "A"] : List String).length :=
  ⟨by decide, by decide⟩

/-- C8: `normalize` is total — every string yields a `Number` or the
whitespace-stripped input as `Text`, with no other transformation and no
failure path. -/
theorem normalize_total :
    ∀ s : String, (∃ v, normalize s = Cell.Number v) ∨
      normalize s = Cell.Text (pyStripStr s) := by
  intro s
  cases h1 : matchPct (pyStrip s.data) with
  | some v => exact Or.inl ⟨v, by unfold normalize; simp [h1]⟩
  | none =>
    cases h2 : matchBare (pyStrip s.data) with
    | some v => exact Or.inl ⟨v, by unfold normalize; simp [h1, h2]⟩
    | none => exact Or.inr (by unfold normalize; simp [h1, h2, pyStripStr])

/-- C9: a table element without a body section makes the extractor
dereference `None` — an `AttributeError`, not the no-table `ValueError` —
whether the header row comes from a header section or not, so a caller
catching only the no-table error does not handle this input. -/
theorem missing_tbody_attrError :
    ∀ t : HTable, t.tbody = none →
      extract (some t) = Except.error ExtractError.attrError ∧
        ExtractError.attrError ≠ ExtractError.noTable := by
  intro t h
  exact ⟨extract_of_noTbody h, by decide⟩

/-- Witness for C9, on a table that has a header-section row but no body
section. -/
theorem missing_tbody_attrError_witness :
    (HTable.mk (some [[⟨CellTag.th, "A"⟩]]) none).tbody = none ∧
      (extract (some (HTable.mk (some [[⟨CellTag.th, "A"⟩]]) none)) =
          Except.error ExtractError.attrError ∧
        ExtractError.attrError ≠ ExtractError.noTable) :=
  ⟨rfl, missing_tbody_attrError (HTable.mk (some [[⟨CellTag.th, "A"⟩]]) none) rfl⟩

/-- C10: the body loop counts only `<td>` cells while headers take both
`<th>` and `<td>` cells, so the record count is the count of iterated rows
whose `<td>` count equals the header count, and a nonempty body row made
only of `<th>` cells fails that test even when its total cell count equals
the header count. -/
theorem td_only_counting :
    ∀ (t : HTable) (pt : PTable) (body : List (List HCell)),
      extract (some t) = Except.ok pt → t.tbody = some body →
      pt.data.length =
          ((if theadHasRow t then body else body.tail).filter
            (fun r => (tdCells r).length == pt.columns.length)).length ∧
        ∀ r : List HCell, (∀ c ∈ r, c.tag = CellTag.th) →
          r.length = pt.columns.length → r ≠ [] →
          ¬((tdCells r).length = pt.columns.length) := by
  intro t pt body h hb
  constructor
  · obtain ⟨body', hb', hcase⟩ := extract_ok_inv h
    rw [hb] at hb'
    obtain rfl : body = body' := Option.some.inj hb'
    rcases hcase with ⟨hr, l, ht, rfl⟩ | ⟨hf, hr, rest, rfl, rfl⟩
    · have hh : theadHasRow t = true := theadHasRow_true_iff.mpr ⟨hr, l, ht⟩
      simp [hh, processRows_eq]
    · simp [hf, processRows_eq]
  · intro r hth hlen hne
    rw [tdCells_eq_nil hth]
    intro h0
    have : r.length ≠ 0 := by simpa using hne
    rw [hlen] at this
    exact this h0.symm

/-- Witness for C10 at `mixedTable`: one record (from the `<td>` row), and
the all-`<th>` row `X Y` — despite its two cells matching the two headers —
fails the `<td>`-count test. -/
theorem td_only_counting_witness :
    (PTable.mk ["H1", "H2"] [[("H1", Cell.Number 1), ("H2", Cell.Number 2)]]).data.length =
        ((if theadHasRow mixedTable then mixedRows else mixedRows.tail).filter
          (fun r => (tdCells r).length ==
            (PTable.mk ["H1", "H2"]
              [[("H1", Cell.Number 1), ("H2", Cell.Number 2)]]).columns.length)).length ∧
      ¬((tdCells [⟨CellTag.th, "X"⟩, ⟨CellTag.th, "Y"⟩]).length =
        (PTable.mk ["H1", "H2"]
          [[("H1", Cell.Number 1), ("H2", Cell.Number 2)]]).columns.length) :=
  ⟨(td_only_counting mixedTable
        (PTable.mk ["H1", "H2"] [[("H1", Cell.Number 1), ("H2", Cell.Number 2)]])
        mixedRows (by decide) rfl).1,
    (td_only_counting mixedTable
        (PTable.mk ["H1", "H2"] [[("H1", Cell.Number 1), ("H2", Cell.Number 2)]])
        mixedRows (by decide) rfl).2
      [⟨CellTag.th, "X"⟩, ⟨CellTag.th, "Y"⟩] (by decide) (by decide) (by decide)⟩

end AE
